import Mathlib

/-!
Verification of the bytecode virtual machine of Clox (`src/vm.c`, `vm.h`).

The VM is embedded shallowly:
* IEEE-754 doubles are abstracted by a type parameter `Num` together with a
  `NumModel` record of the host's arithmetic operations, so theorems hold for
  every host-float implementation.
* Raw pointers into the operand stack become indices (`Nat`); the open-upvalue
  "list threaded through heap cells" becomes a list of cell ids into an
  explicit upvalue heap, as suggested by the source's own design notes.
* The global `VM` struct becomes an explicit `VMState` record; the `stdout` /
  `stderr` streams become list-of-lines fields of the state.
-/

namespace Clox

/-- Host arithmetic on the double type, abstracted: the VM only ever applies
these operations and pushes their results. -/
structure NumModel (Num : Type) where
  add : Num → Num → Num
  sub : Num → Num → Num
  mul : Num → Num → Num
  div : Num → Num → Num
  lt : Num → Num → Bool
  gt : Num → Num → Bool
  neg : Num → Num
  beq : Num → Num → Bool
  toStr : Num → String

mutual

/-- Tagged `Value` of value.h: nil, bool, number, or heap object. -/
inductive Value (Num : Type) : Type where
  | nil : Value Num
  | boolean (b : Bool) : Value Num
  | number (n : Num) : Value Num
  | obj (o : Obj Num) : Value Num

/-- Heap object kinds reachable from VM values (object.h): interned string,
function, native, closure.  (Upvalue objects never appear as stack values;
they live in the VM's upvalue heap.) -/
inductive Obj (Num : Type) : Type where
  | str (s : String) : Obj Num
  | function (fn : ObjFunction Num) : Obj Num
  | native (nid : Nat) : Obj Num
  | closure (c : ObjClosure Num) : Obj Num

/-- Embeds `ObjFunction`: arity, upvalue count, chunk (code bytes + constant pool +
line table), optional name (`none` for the top-level script). -/
inductive ObjFunction (Num : Type) : Type where
  | mk (arity : Nat) (upvalueCount : Nat) (code : List Nat)
       (constants : List (Value Num)) (lines : List Nat)
       (name : Option String) : ObjFunction Num

/-- Embeds `ObjClosure`: a function plus an array of upvalue-cell ids. -/
inductive ObjClosure (Num : Type) : Type where
  | mk (function : ObjFunction Num) (upvalues : List Nat) : ObjClosure Num

end

namespace ObjFunction

variable {Num : Type}

def arity : ObjFunction Num → Nat
  | .mk a _ _ _ _ _ => a

def upvalueCount : ObjFunction Num → Nat
  | .mk _ u _ _ _ _ => u

def code : ObjFunction Num → List Nat
  | .mk _ _ c _ _ _ => c

def constants : ObjFunction Num → List (Value Num)
  | .mk _ _ _ k _ _ => k

def lines : ObjFunction Num → List Nat
  | .mk _ _ _ _ l _ => l

def name : ObjFunction Num → Option String
  | .mk _ _ _ _ _ n => n

end ObjFunction

namespace ObjClosure

variable {Num : Type}

def function : ObjClosure Num → ObjFunction Num
  | .mk f _ => f

def upvalues : ObjClosure Num → List Nat
  | .mk _ u => u

end ObjClosure

/-- Embeds `InterpretResult` of vm.h. -/
inductive InterpretResult : Type where
  | ok : InterpretResult
  | compileError : InterpretResult
  | runtimeErr : InterpretResult
deriving DecidableEq, Repr

/-- The `location` of an upvalue cell: a pointer into the operand stack while
open (modelled as a stack index), or the cell's own `closed` field once
closed. -/
inductive ULoc : Type where
  | stackSlot (i : Nat) : ULoc
  | ownClosed : ULoc
deriving DecidableEq, Repr

/-- Embeds `ObjUpvalue` heap cell: `location` plus the owned `closed` slot.
Modelled from the spec: `object.c` is not under `src/`; per spec §3 an
upvalue is "a cell holding either a pointer into a live VM stack slot
(open) or an owned Value (closed)", and `newUpvalue` creates it open. -/
structure UpvalueCell (Num : Type) : Type where
  location : ULoc
  closed : Value Num

/-- Embeds `CallFrame` of vm.h: the running closure, its instruction pointer
(index into the function's code), and the base index of its stack window. -/
structure CallFrame (Num : Type) : Type where
  closure : ObjClosure Num
  ip : Nat
  slots : Nat

/-- The `VM` struct of vm.h.  `frames` lists the call frames with the
innermost (most recent) frame first; `stack` is the operand stack with
index 0 at the bottom, so `stack.length` plays the role of `stackTop`.
`openUpvalues` holds upvalue-cell ids (indices into `uheap`) in list order;
`out`/`err` record the lines written to stdout/stderr. -/
structure VMState (Num : Type) : Type where
  frames : List (CallFrame Num)
  stack : List (Value Num)
  globals : List (String × Value Num)
  openUpvalues : List Nat
  uheap : List (UpvalueCell Num)
  out : List String
  err : List String

/-- Embeds `FRAMES_MAX` (vm.h). -/
def FRAMES_MAX : Nat := 64

/-- Embeds `UINT8_COUNT`.  Modelled from the spec: common.h is not under `src/`;
spec §5 fixes the operand-stack bound at 64·256 slots, so `UINT8_COUNT`
is `UINT8_MAX + 1 = 256`. -/
def UINT8_COUNT : Nat := 256

/-- Embeds `STACK_MAX = FRAMES_MAX * UINT8_COUNT` (vm.h). -/
def STACK_MAX : Nat := FRAMES_MAX * UINT8_COUNT

variable {Num : Type}

/-- Modelled from the spec: `table.c` is not under `src/`.  Spec §4.C's hash
table, at the observable level the VM uses, is a finite map from interned
strings to values; `tableGet` returns the value bound to a key, if any. -/
def tableGet (t : List (String × Value Num)) (k : String) : Option (Value Num) :=
  match t with
  | [] => none
  | (k', v) :: rest => if k' = k then some v else tableGet rest k

/-- Modelled from the spec: `table.c` is not under `src/`.  `tableSet` binds
`k` to `v` and returns `true` iff `k` is a new key (as the C function does). -/
def tableSet (t : List (String × Value Num)) (k : String) (v : Value Num) :
    Bool × List (String × Value Num) :=
  match t with
  | [] => (true, [(k, v)])
  | (k', v') :: rest =>
    if k' = k then (false, (k', v) :: rest)
    else
      let r := tableSet rest k v
      (r.1, (k', v') :: r.2)

/-- Modelled from the spec: `table.c` is not under `src/`.  `tableDelete`
removes the binding of `k`, if any. -/
def tableDelete (t : List (String × Value Num)) (k : String) :
    List (String × Value Num) :=
  match t with
  | [] => []
  | (k', v') :: rest =>
    if k' = k then tableDelete rest k else (k', v') :: tableDelete rest k

/-- Embeds `resetStack` (vm.c): empty the operand stack, the frame stack and the
open-upvalue list. -/
def resetStack (s : VMState Num) : VMState Num :=
  { s with stack := [], frames := [], openUpvalues := [] }

/-- One line of the stack trace printed by `runtimeError` (vm.c): the source
line is read from the chunk's line table at offset `ip − 1` (the byte just
read); a function without a name prints as `script`. -/
def frameTraceLine (f : CallFrame Num) : String :=
  let instruction := f.ip - 1
  let line := f.closure.function.lines.getD instruction 0
  "[line " ++ toString line ++ "] in " ++
    (match f.closure.function.name with
     | none => "script"
     | some n => n ++ "()")

/-- Embeds `runtimeError` (vm.c): append the message and then one trace line per
active frame, from the topmost frame down, to stderr; then reset the
stacks. -/
def runtimeError (msg : String) (s : VMState Num) : VMState Num :=
  resetStack { s with err := s.err ++ (msg :: s.frames.map frameTraceLine) }

/-- Embeds `push` (vm.c): write the value at `stackTop` and increment it.  The C
function performs no bound check. -/
def push (v : Value Num) (s : VMState Num) : VMState Num :=
  { s with stack := s.stack ++ [v] }

/-- Embeds `pop` (vm.c): decrement `stackTop` and return the value there; `none`
models the undefined behaviour of popping an empty stack. -/
def pop (s : VMState Num) : Option (Value Num × VMState Num) :=
  match s.stack.getLast? with
  | some v => some (v, { s with stack := s.stack.dropLast })
  | none => none

/-- Embeds `peek` (vm.c): read `stackTop[-1 - distance]`; `none` models an
out-of-stack read. -/
def peek (distance : Nat) (s : VMState Num) : Option (Value Num) :=
  if distance < s.stack.length then s.stack[s.stack.length - 1 - distance]?
  else none

/-- Embeds `IS_NUMBER`. -/
def isNumber : Value Num → Bool
  | .number _ => true
  | _ => false

/-- Embeds `IS_STRING`. -/
def isString : Value Num → Bool
  | .obj (.str _) => true
  | _ => false

/-- Embeds `AS_NUMBER`, made total via `Option`. -/
def asNumber : Value Num → Option Num
  | .number n => some n
  | _ => none

/-- Embeds `AS_STRING` (as the string payload), made total via `Option`. -/
def asString : Value Num → Option String
  | .obj (.str st) => some st
  | _ => none

/-- Embeds `isFalsey` (vm.c): `IS_NIL(value) || (IS_BOOL(value) && !AS_BOOL(value))`. -/
def isFalsey : Value Num → Bool
  | .nil => true
  | .boolean b => !b
  | _ => false

/-- Embeds `valuesEqual`.  Modelled from the spec: `value.c` is not under `src/`.
Spec §3: `nil == nil`; booleans by payload; numbers by host float equality;
strings are interned, so string equality reduces to structural equality.
Other objects compare by identity; the by-value embedding has no object
identity, and no claim exercises those cases. -/
def valuesEqual (M : NumModel Num) : Value Num → Value Num → Bool
  | .nil, .nil => true
  | .boolean a, .boolean b => a == b
  | .number a, .number b => M.beq a b
  | .obj (.str a), .obj (.str b) => a == b
  | _, _ => false

/-- Embeds `printValue`.  Modelled from the spec: `value.c` is not under `src/`.
Spec §6 fixes the rendering of nil, booleans and strings; numbers use the
host's formatting (`NumModel.toStr`); functions print with their name. -/
def printValue (M : NumModel Num) : Value Num → String
  | .nil => "nil"
  | .boolean b => if b then "true" else "false"
  | .number n => M.toStr n
  | .obj (.str st) => st
  | .obj (.function fn) =>
      match fn.name with
      | some n => "<fn " ++ n ++ ">"
      | none => "<script>"
  | .obj (.native _) => "<native fn>"
  | .obj (.closure c) =>
      match c.function.name with
      | some n => "<fn " ++ n ++ ">"
      | none => "<script>"

/-- Embeds `concatenate` (vm.c): pop `b` then `a` (both strings) and push the byte
concatenation `a ++ b`. -/
def concatenate (s : VMState Num) : Option (VMState Num) := do
  let (bv, s₁) ← pop s
  let (av, s₂) ← pop s₁
  let b ← asString bv
  let a ← asString av
  some (push (.obj (.str (a ++ b))) s₂)

/-- Embeds `captureUpvalue` (vm.c): walk the open-upvalue list while
`upvalue->location > lcl`; if an entry with `location == lcl` is found,
return it; otherwise allocate a new open cell for `lcl` and link it in at
the current position.  Returns `(cell id, new heap, new open list)`; `none`
models a dangling id or a closed cell on the open list (never reachable). -/
def captureUpvalue (lcl : Nat) (uheap : List (UpvalueCell Num)) :
    List Nat → Option (Nat × List (UpvalueCell Num) × List Nat)
  | [] =>
      some (uheap.length, uheap ++ [⟨ULoc.stackSlot lcl, Value.nil⟩],
            [uheap.length])
  | id :: rest =>
    match uheap[id]? with
    | none => none
    | some cell =>
      match cell.location with
      | ULoc.ownClosed => none
      | ULoc.stackSlot i =>
        if lcl < i then
          match captureUpvalue lcl uheap rest with
          | none => none
          | some (rid, h, rest') => some (rid, h, id :: rest')
        else if i = lcl then
          some (id, uheap, id :: rest)
        else
          some (uheap.length, uheap ++ [⟨ULoc.stackSlot lcl, Value.nil⟩],
                uheap.length :: id :: rest)

/-- Embeds `closeUpvalues` (vm.c): while the head of the open list has
`location ≥ last`, copy the stack value at its location into its `closed`
field, repoint its location at that field, and unlink it; stop at the first
head below `last`.  Returns `(new heap, new open list)`. -/
def closeUpvalues (stack : List (Value Num)) (last : Nat) :
    List (UpvalueCell Num) → List Nat →
    Option (List (UpvalueCell Num) × List Nat)
  | uheap, [] => some (uheap, [])
  | uheap, id :: rest =>
    match uheap[id]? with
    | none => none
    | some cell =>
      match cell.location with
      | ULoc.ownClosed => none
      | ULoc.stackSlot i =>
        if last ≤ i then
          match stack[i]? with
          | none => none
          | some v => closeUpvalues stack last (uheap.set id ⟨ULoc.ownClosed, v⟩) rest
        else
          some (uheap, id :: rest)

/-- Embeds `call` (vm.c): check `argCount` against the closure's arity, then the
frame stack against `FRAMES_MAX`; on success push a frame whose `ip` is the
start of the function's code and whose `slots` base is
`stackTop − argCount − 1`. -/
def call (closure : ObjClosure Num) (argCount : Nat) (s : VMState Num) :
    Bool × VMState Num :=
  if argCount ≠ closure.function.arity then
    (false, runtimeError ("Expected " ++ toString closure.function.arity ++
      " arguments but got " ++ toString argCount ++ ".") s)
  else if s.frames.length = FRAMES_MAX then
    (false, runtimeError "Stack overflow." s)
  else
    (true, { s with
      frames := ⟨closure, 0, s.stack.length - argCount - 1⟩ :: s.frames })

/-- Embeds `callValue` (vm.c): dispatch a call on a closure or a native; any other
value is a runtime error.  A native `nid` is interpreted by the ambient
`natEval`, receiving the argument count and the top `argCount` stack values;
its result replaces the callee and the arguments. -/
def callValue (natEval : Nat → Nat → List (Value Num) → Value Num)
    (callee : Value Num) (argCount : Nat) (s : VMState Num) :
    Bool × VMState Num :=
  match callee with
  | .obj (.closure c) => call c argCount s
  | .obj (.native nid) =>
      let args := s.stack.drop (s.stack.length - argCount)
      let result := natEval nid argCount args
      (true, push result
        { s with stack := s.stack.take (s.stack.length - (argCount + 1)) })
  | _ => (false, runtimeError "Can only call functions and classes." s)

/-- The VM's opcodes (the OpCode enum lives in chunk.h, which is not under
`src/`; the constructors follow the instruction table of spec §4.F, which
matches vm.c's dispatch switch). -/
inductive OpCode : Type where
  | constant | nilV | trueV | falseV | popOp
  | getLocal | setLocal | getGlobal | defineGlobal | setGlobal
  | getUpvalue | setUpvalue
  | equal | greater | less
  | add | subtract | multiply | divide
  | notOp | negate | print
  | jump | jumpIfFalse | loop
  | callOp | closureOp | closeUpvalue | ret
deriving DecidableEq, Repr

/-- Modelled from the spec: chunk.h (the OpCode enum) is not under `src/`;
opcodes are numbered in the order of spec §4.F's instruction table.  No
claim depends on the numeric encoding. -/
def decodeOp (b : Nat) : Option OpCode :=
  match b with
  | 0 => some .constant
  | 1 => some .nilV
  | 2 => some .trueV
  | 3 => some .falseV
  | 4 => some .popOp
  | 5 => some .getLocal
  | 6 => some .setLocal
  | 7 => some .getGlobal
  | 8 => some .defineGlobal
  | 9 => some .setGlobal
  | 10 => some .getUpvalue
  | 11 => some .setUpvalue
  | 12 => some .equal
  | 13 => some .greater
  | 14 => some .less
  | 15 => some .add
  | 16 => some .subtract
  | 17 => some .multiply
  | 18 => some .divide
  | 19 => some .notOp
  | 20 => some .negate
  | 21 => some .print
  | 22 => some .jump
  | 23 => some .jumpIfFalse
  | 24 => some .loop
  | 25 => some .callOp
  | 26 => some .closureOp
  | 27 => some .closeUpvalue
  | 28 => some .ret
  | _ => none

/-- Embeds `READ_BYTE()`: read the code byte at `ip` and advance `ip`.  The byte is
reduced mod 256 (`uint8_t`); `none` models reading past the chunk. -/
def readByte (f : CallFrame Num) : Option (Nat × CallFrame Num) :=
  match f.closure.function.code[f.ip]? with
  | some b => some (b % 256, { f with ip := f.ip + 1 })
  | none => none

/-- Embeds `READ_SHORT()`: two code bytes, big-endian. -/
def readShort (f : CallFrame Num) : Option (Nat × CallFrame Num) := do
  let (hi, f₁) ← readByte f
  let (lo, f₂) ← readByte f₁
  some (hi * 256 + lo, f₂)

/-- Embeds `READ_CONSTANT()`: read a byte and index the constant pool with it. -/
def readConstant (f : CallFrame Num) : Option (Value Num × CallFrame Num) := do
  let (b, f₁) ← readByte f
  let v ← f.closure.function.constants[b]?
  some (v, f₁)

/-- Embeds `READ_STRING()`: `AS_STRING(READ_CONSTANT())`. -/
def readString (f : CallFrame Num) : Option (String × CallFrame Num) := do
  let (v, f₁) ← readConstant f
  let st ← asString v
  some (st, f₁)

/-- Reinstall the current frame (whose `ip` the dispatch advances) above the
remaining frames. -/
def withFrame (f : CallFrame Num) (fs : List (CallFrame Num))
    (s : VMState Num) : VMState Num :=
  { s with frames := f :: fs }

/-- The per-instruction outcome of `run`'s dispatch loop: continue with a new
state, leave the loop with an `InterpretResult` (the final state records the
side effects), or hit C undefined behaviour (bad cast, out-of-range read —
never reachable from compiler-generated code). -/
inductive StepResult (Num : Type) : Type where
  | next (s : VMState Num) : StepResult Num
  | done (r : InterpretResult) (s : VMState Num) : StepResult Num
  | stuck : StepResult Num

/-- The `BINARY_OP` macro of vm.c: both operands must be numbers (else the
runtime error "Operands must be numbers."), then pop `b`, pop `a`, push
`mk a b`. -/
def binaryNumOp (mk : Num → Num → Value Num) (f : CallFrame Num)
    (fs : List (CallFrame Num)) (s : VMState Num) : StepResult Num :=
  match peek 0 s, peek 1 s with
  | some b0, some a0 =>
    if !(isNumber b0) || !(isNumber a0) then
      .done .runtimeErr (runtimeError "Operands must be numbers." (withFrame f fs s))
    else
      match asNumber b0, asNumber a0 with
      | some b, some a =>
          .next (push (mk a b)
            { withFrame f fs s with stack := s.stack.dropLast.dropLast })
      | _, _ => .stuck
  | _, _ => .stuck

/-- The upvalue-filling loop of `OP_CLOSURE` (vm.c): for each of the
closure's `upvalueCount` upvalues read `(isLocal, index)`; a local is
captured at `slots + index`, otherwise the id is copied from the enclosing
closure's upvalue array. -/
def readUpvalueIds (slots : Nat) (parent : List Nat) :
    Nat → CallFrame Num → List (UpvalueCell Num) → List Nat →
    Option (List Nat × CallFrame Num × List (UpvalueCell Num) × List Nat)
  | 0, f, uheap, opens => some ([], f, uheap, opens)
  | n + 1, f, uheap, opens => do
    let (isLocal, f₁) ← readByte f
    let (index, f₂) ← readByte f₁
    if isLocal ≠ 0 then
      match captureUpvalue (slots + index) uheap opens with
      | none => none
      | some (id, uheap', opens') =>
        match readUpvalueIds slots parent n f₂ uheap' opens' with
        | none => none
        | some (ids, f₃, h, o) => some (id :: ids, f₃, h, o)
    else
      match parent[index]? with
      | none => none
      | some id =>
        match readUpvalueIds slots parent n f₂ uheap opens with
        | none => none
        | some (ids, f₃, h, o) => some (id :: ids, f₃, h, o)

/-- The body of one opcode case of `run`'s dispatch switch (vm.c), applied
after the opcode byte has been read: `f` is the current frame with `ip`
already past the opcode, `fs` the remaining frames, and `s` the VM state
(whose `frames` field is superseded by `f :: fs`). -/
def execOp (M : NumModel Num)
    (natEval : Nat → Nat → List (Value Num) → Value Num)
    (op : OpCode) (f : CallFrame Num) (fs : List (CallFrame Num))
    (s : VMState Num) : StepResult Num :=
  match op with
  | .constant =>
    match readConstant f with
    | none => .stuck
    | some (v, f') => .next (push v (withFrame f' fs s))
  | .nilV => .next (push .nil (withFrame f fs s))
  | .trueV => .next (push (.boolean true) (withFrame f fs s))
  | .falseV => .next (push (.boolean false) (withFrame f fs s))
  | .popOp =>
    match pop (withFrame f fs s) with
    | none => .stuck
    | some (_, s') => .next s'
  | .getLocal =>
    match readByte f with
    | none => .stuck
    | some (slot, f') =>
      match s.stack[f.slots + slot]? with
      | none => .stuck
      | some v => .next (push v (withFrame f' fs s))
  | .setLocal =>
    match readByte f with
    | none => .stuck
    | some (slot, f') =>
      match peek 0 s with
      | none => .stuck
      | some v =>
        if f.slots + slot < s.stack.length then
          .next { withFrame f' fs s with stack := s.stack.set (f.slots + slot) v }
        else .stuck
  | .getGlobal =>
    match readString f with
    | none => .stuck
    | some (name, f') =>
      match tableGet s.globals name with
      | none =>
        .done .runtimeErr
          (runtimeError ("Undefined variable '" ++ name ++ "'.")
            (withFrame f' fs s))
      | some v => .next (push v (withFrame f' fs s))
  | .defineGlobal =>
    match readString f with
    | none => .stuck
    | some (name, f') =>
      match peek 0 s with
      | none => .stuck
      | some v =>
        match pop { withFrame f' fs s with
                    globals := (tableSet s.globals name v).2 } with
        | none => .stuck
        | some (_, s') => .next s'
  | .setGlobal =>
    match readString f with
    | none => .stuck
    | some (name, f') =>
      match peek 0 s with
      | none => .stuck
      | some v =>
        let r := tableSet s.globals name v
        if r.1 then
          .done .runtimeErr
            (runtimeError ("Undefined variable '" ++ name ++ "'.")
              { withFrame f' fs s with globals := tableDelete r.2 name })
        else .next { withFrame f' fs s with globals := r.2 }
  | .getUpvalue =>
    match readByte f with
    | none => .stuck
    | some (slot, f') =>
      match f.closure.upvalues[slot]? with
      | none => .stuck
      | some id =>
        match s.uheap[id]? with
        | none => .stuck
        | some cell =>
          match (match cell.location with
                 | ULoc.stackSlot i => s.stack[i]?
                 | ULoc.ownClosed => some cell.closed) with
          | none => .stuck
          | some v => .next (push v (withFrame f' fs s))
  | .setUpvalue =>
    match readByte f with
    | none => .stuck
    | some (slot, f') =>
      match peek 0 s with
      | none => .stuck
      | some v =>
        match f.closure.upvalues[slot]? with
        | none => .stuck
        | some id =>
          match s.uheap[id]? with
          | none => .stuck
          | some cell =>
            match cell.location with
            | ULoc.stackSlot i =>
              if i < s.stack.length then
                .next { withFrame f' fs s with stack := s.stack.set i v }
              else .stuck
            | ULoc.ownClosed =>
              .next { withFrame f' fs s with
                      uheap := s.uheap.set id { cell with closed := v } }
  | .equal =>
    match pop (withFrame f fs s) with
    | none => .stuck
    | some (b, s₁) =>
      match pop s₁ with
      | none => .stuck
      | some (a, s₂) => .next (push (.boolean (valuesEqual M a b)) s₂)
  | .greater => binaryNumOp (fun a b => .boolean (M.gt a b)) f fs s
  | .less => binaryNumOp (fun a b => .boolean (M.lt a b)) f fs s
  | .add =>
    match peek 0 s, peek 1 s with
    | some b0, some a0 =>
      if isString b0 && isString a0 then
        match concatenate (withFrame f fs s) with
        | none => .stuck
        | some s' => .next s'
      else if isNumber b0 && isNumber a0 then
        match asNumber b0, asNumber a0 with
        | some b, some a =>
            .next (push (.number (M.add a b))
              { withFrame f fs s with stack := s.stack.dropLast.dropLast })
        | _, _ => .stuck
      else
        -- vm.c:319 returns INTERPRET_COMPILE_ERROR on this path.
        .done .compileError
          (runtimeError "Operands must be two numbers or two strings."
            (withFrame f fs s))
    | _, _ => .stuck
  | .subtract => binaryNumOp (fun a b => .number (M.sub a b)) f fs s
  | .multiply => binaryNumOp (fun a b => .number (M.mul a b)) f fs s
  | .divide => binaryNumOp (fun a b => .number (M.div a b)) f fs s
  | .notOp =>
    match pop (withFrame f fs s) with
    | none => .stuck
    | some (v, s') => .next (push (.boolean (isFalsey v)) s')
  | .negate =>
    match peek 0 s with
    | none => .stuck
    | some v0 =>
      if !(isNumber v0) then
        .done .runtimeErr
          (runtimeError "Operand must be a number." (withFrame f fs s))
      else
        match pop (withFrame f fs s) with
        | none => .stuck
        | some (v, s') =>
          match asNumber v with
          | none => .stuck
          | some n => .next (push (.number (M.neg n)) s')
  | .print =>
    match pop (withFrame f fs s) with
    | none => .stuck
    | some (v, s') => .next { s' with out := s'.out ++ [printValue M v] }
  | .jump =>
    match readShort f with
    | none => .stuck
    | some (off, f') => .next (withFrame { f' with ip := f'.ip + off } fs s)
  | .jumpIfFalse =>
    match readShort f with
    | none => .stuck
    | some (off, f') =>
      match peek 0 s with
      | none => .stuck
      | some v =>
        if isFalsey v then .next (withFrame { f' with ip := f'.ip + off } fs s)
        else .next (withFrame f' fs s)
  | .loop =>
    match readShort f with
    | none => .stuck
    | some (off, f') =>
      if off ≤ f'.ip then .next (withFrame { f' with ip := f'.ip - off } fs s)
      else .stuck
  | .callOp =>
    match readByte f with
    | none => .stuck
    | some (argCount, f') =>
      let s₁ := withFrame f' fs s
      match peek argCount s₁ with
      | none => .stuck
      | some callee =>
        let r := callValue natEval callee argCount s₁
        if r.1 then .next r.2 else .done .runtimeErr r.2
  | .closureOp =>
    match readConstant f with
    | none => .stuck
    | some (v, f') =>
      match v with
      | .obj (.function fn) =>
        match readUpvalueIds f.slots f.closure.upvalues fn.upvalueCount f'
                s.uheap s.openUpvalues with
        | none => .stuck
        | some (ids, f'', h, o) =>
          .next (push (.obj (.closure ⟨fn, ids⟩))
            { withFrame f'' fs s with uheap := h, openUpvalues := o })
      | _ => .stuck
  | .closeUpvalue =>
    match closeUpvalues s.stack (s.stack.length - 1) s.uheap s.openUpvalues with
    | none => .stuck
    | some (h, o) =>
      match pop { withFrame f fs s with uheap := h, openUpvalues := o } with
      | none => .stuck
      | some (_, s') => .next s'
  | .ret =>
    match pop (withFrame f fs s) with
    | none => .stuck
    | some (result, s₁) =>
      match closeUpvalues s₁.stack f.slots s₁.uheap s₁.openUpvalues with
      | none => .stuck
      | some (h, o) =>
        let s₂ := { s₁ with uheap := h, openUpvalues := o, frames := fs }
        match fs with
        | [] =>
          match pop s₂ with
          | none => .stuck
          | some (_, s₃) => .done .ok s₃
        | _ =>
          .next (push result { s₂ with stack := s₂.stack.take f.slots })

/-- One iteration of `run`'s dispatch loop (vm.c): take the innermost frame,
read the opcode byte at `ip`, and dispatch.  A byte matching no opcode case
falls through the C switch and the loop continues. -/
def step (M : NumModel Num)
    (natEval : Nat → Nat → List (Value Num) → Value Num)
    (s : VMState Num) : StepResult Num :=
  match s.frames with
  | [] => .stuck
  | f :: fs =>
    match readByte f with
    | none => .stuck
    | some (b, f') =>
      match decodeOp b with
      | none => .next (withFrame f' fs s)
      | some op => execOp M natEval op f' fs s

/-! ### Concrete instances used by witnesses -/

/-- A concrete number model over `Int`, used only to instantiate the
universally quantified theorems at executable inputs. -/
def intNumModel : NumModel Int where
  add := fun a b => a + b
  sub := fun a b => a - b
  mul := fun a b => a * b
  div := fun a b => a / b
  lt := fun a b => decide (a < b)
  gt := fun a b => decide (b < a)
  neg := fun a => -a
  beq := fun a b => a == b
  toStr := fun a => toString a

/-- A trivial native interpretation for witnesses. -/
def natNil : Nat → Nat → List (Value Int) → Value Int := fun _ _ _ => Value.nil

/-! ### Table lemmas (shared) -/

theorem tableGet_tableSet_self (t : List (String × Value Num)) (k : String)
    (v : Value Num) : tableGet (tableSet t k v).2 k = some v := by
  induction t with
  | nil => simp [tableSet, tableGet]
  | cons p rest ih =>
    obtain ⟨k', v'⟩ := p
    by_cases h : k' = k
    · simp [tableSet, tableGet, h]
    · simp [tableSet, tableGet, h, ih]

theorem tableSet_isNew_of_not_bound (t : List (String × Value Num)) (k : String)
    (v : Value Num) (h : tableGet t k = none) : (tableSet t k v).1 = true := by
  induction t with
  | nil => simp [tableSet]
  | cons p rest ih =>
    obtain ⟨k', v'⟩ := p
    by_cases hk : k' = k
    · simp [tableGet, hk] at h
    · simp [tableGet, hk] at h
      simp [tableSet, hk, ih h]

theorem tableDelete_tableSet_of_not_bound (t : List (String × Value Num))
    (k : String) (v : Value Num) (h : tableGet t k = none) :
    tableDelete (tableSet t k v).2 k = t := by
  induction t with
  | nil => simp [tableSet, tableDelete]
  | cons p rest ih =>
    obtain ⟨k', v'⟩ := p
    by_cases hk : k' = k
    · simp [tableGet, hk] at h
    · simp [tableGet, hk] at h
      simp [tableSet, tableDelete, hk, ih h]

/-! ### Claims -/

/-- C10: executing `OP_DEFINE_GLOBAL` for a name that is already bound in the
globals table replaces its value with the new one and raises no error —
the step succeeds (`next`, stderr untouched) with the popped initializer
bound to the name, and a lookup of the name afterwards yields the new
value.  Global redefinition is silently permitted. -/
theorem defineGlobal_redefinition_silent {Num : Type} (M : NumModel Num)
    (natEval : Nat → Nat → List (Value Num) → Value Num)
    (s : VMState Num) (f f₁ f₂ : CallFrame Num) (fs : List (CallFrame Num))
    (b : Nat) (name : String) (stk : List (Value Num)) (v w : Value Num)
    (hf : s.frames = f :: fs)
    (hb : readByte f = some (b, f₁))
    (hop : decodeOp b = some OpCode.defineGlobal)
    (hrs : readString f₁ = some (name, f₂))
    (hstk : s.stack = stk ++ [v])
    (_hbound : tableGet s.globals name = some w) :
    step M natEval s =
      StepResult.next { s with frames := f₂ :: fs, stack := stk,
                               globals := (tableSet s.globals name v).2 }
    ∧ tableGet (tableSet s.globals name v).2 name = some v := by
  refine ⟨?_, tableGet_tableSet_self ..⟩
  simp only [step, hf, hb, hop]
  simp only [execOp, hrs]
  simp [peek, hstk, pop, withFrame, List.getElem?_concat_length]

/-- A one-instruction function chunk over `Int`, for concrete instantiations:
`code` bytes, `constants` pool, `lines` table, `name`. -/
def demoFn (code : List Nat) (constants : List (Value Int))
    (lines : List Nat) (name : Option String) : ObjFunction Int :=
  .mk 0 0 code constants lines name

/-- The function of the C10 witness: `OP_DEFINE_GLOBAL` on constant 0 = "x". -/
def c10Fn : ObjFunction Int := demoFn [8, 0] [.obj (.str "x")] [] none

/-- The state of the C10 witness: `5` pushed, `x` currently bound to `1`. -/
def c10S : VMState Int :=
  { frames := [⟨⟨c10Fn, []⟩, 0, 0⟩], stack := [.number 5],
    globals := [("x", .number 1)], openUpvalues := [], uheap := [],
    out := [], err := [] }

/-- Witness for C10: one `OP_DEFINE_GLOBAL x` step on a state where `x` is
already bound to `1` rebinds it to the pushed `5` with no error. -/
theorem defineGlobal_redefinition_silent_witness :
    step intNumModel natNil c10S =
      StepResult.next
        { c10S with
          frames := [⟨⟨c10Fn, []⟩, 2, 0⟩],
          stack := [],
          globals := (tableSet c10S.globals "x" (.number 5)).2 }
    ∧ tableGet (tableSet c10S.globals "x" (.number 5)).2 "x" =
        some (.number 5) :=
  defineGlobal_redefinition_silent intNumModel natNil c10S
    ⟨⟨c10Fn, []⟩, 0, 0⟩ ⟨⟨c10Fn, []⟩, 1, 0⟩ ⟨⟨c10Fn, []⟩, 2, 0⟩
    [] 8 "x" [] (.number 5) (.number 1) rfl rfl rfl rfl rfl rfl

/-- C3, part formalised as one conjunction: for a name with no binding in the
globals table, `OP_GET_GLOBAL` stops with a runtime error, and
`OP_SET_GLOBAL` stops with a runtime error while the globals mapping of the
final state is exactly the original mapping (the transient
`tableSet`/`tableDelete` pair cancels: the name is not created and no
binding is altered). -/
theorem globals_undefined_errors {Num : Type} (M : NumModel Num)
    (natEval : Nat → Nat → List (Value Num) → Value Num)
    (name : String) :
    (∀ (s : VMState Num) (f f₁ f₂ : CallFrame Num) (fs : List (CallFrame Num))
        (b : Nat),
      s.frames = f :: fs →
      readByte f = some (b, f₁) →
      decodeOp b = some OpCode.getGlobal →
      readString f₁ = some (name, f₂) →
      tableGet s.globals name = none →
      step M natEval s =
        StepResult.done InterpretResult.runtimeErr
          (runtimeError ("Undefined variable '" ++ name ++ "'.")
            { s with frames := f₂ :: fs }))
    ∧ (∀ (s : VMState Num) (f f₁ f₂ : CallFrame Num) (fs : List (CallFrame Num))
        (b : Nat) (stk : List (Value Num)) (v : Value Num),
      s.frames = f :: fs →
      readByte f = some (b, f₁) →
      decodeOp b = some OpCode.setGlobal →
      readString f₁ = some (name, f₂) →
      s.stack = stk ++ [v] →
      tableGet s.globals name = none →
      step M natEval s =
        StepResult.done InterpretResult.runtimeErr
          (runtimeError ("Undefined variable '" ++ name ++ "'.")
            { s with frames := f₂ :: fs })
      ∧ tableDelete (tableSet s.globals name v).2 name = s.globals) := by
  constructor
  · intro s f f₁ f₂ fs b hf hb hop hrs hget
    simp only [step, hf, hb, hop]
    simp only [execOp, hrs, hget]
    simp [withFrame]
  · intro s f f₁ f₂ fs b stk v hf hb hop hrs hstk hget
    have hnew := tableSet_isNew_of_not_bound s.globals name v hget
    have hdel := tableDelete_tableSet_of_not_bound s.globals name v hget
    refine ⟨?_, hdel⟩
    simp only [step, hf, hb, hop]
    simp only [execOp, hrs]
    simp [peek, hstk, withFrame, List.getElem?_concat_length, hnew, hdel]

/-- The function of the C3 GET_GLOBAL witness: `OP_GET_GLOBAL` on "y". -/
def c3gFn : ObjFunction Int := demoFn [7, 0] [.obj (.str "y")] [] none

/-- The state of the C3 GET_GLOBAL witness: `y` is unbound. -/
def c3gS : VMState Int :=
  { frames := [⟨⟨c3gFn, []⟩, 0, 0⟩], stack := [],
    globals := [("x", .number 1)], openUpvalues := [], uheap := [],
    out := [], err := [] }

/-- The function of the C3 SET_GLOBAL witness: `OP_SET_GLOBAL` on "y". -/
def c3sFn : ObjFunction Int := demoFn [9, 0] [.obj (.str "y")] [] none

/-- The state of the C3 SET_GLOBAL witness: `2` pushed, `y` unbound. -/
def c3sS : VMState Int :=
  { frames := [⟨⟨c3sFn, []⟩, 0, 0⟩], stack := [.number 2],
    globals := [("x", .number 1)], openUpvalues := [], uheap := [],
    out := [], err := [] }

/-- Witness for C3: `OP_GET_GLOBAL y` and `OP_SET_GLOBAL y` with `y` unbound
both stop with the runtime error, and the `SET_GLOBAL` step leaves the
globals mapping `[("x", 1)]` intact. -/
theorem globals_undefined_errors_witness :
    (step intNumModel natNil c3gS =
      StepResult.done InterpretResult.runtimeErr
        (runtimeError ("Undefined variable '" ++ "y" ++ "'.")
          { c3gS with frames := [⟨⟨c3gFn, []⟩, 2, 0⟩] }))
    ∧ (step intNumModel natNil c3sS =
        StepResult.done InterpretResult.runtimeErr
          (runtimeError ("Undefined variable '" ++ "y" ++ "'.")
            { c3sS with frames := [⟨⟨c3sFn, []⟩, 2, 0⟩] })
      ∧ tableDelete (tableSet c3sS.globals "y" (.number 2)).2 "y" =
          c3sS.globals) :=
  ⟨(globals_undefined_errors intNumModel natNil "y").1 c3gS
      ⟨⟨c3gFn, []⟩, 0, 0⟩ ⟨⟨c3gFn, []⟩, 1, 0⟩ ⟨⟨c3gFn, []⟩, 2, 0⟩
      [] 7 rfl rfl rfl rfl rfl,
   (globals_undefined_errors intNumModel natNil "y").2 c3sS
      ⟨⟨c3sFn, []⟩, 0, 0⟩ ⟨⟨c3sFn, []⟩, 1, 0⟩ ⟨⟨c3sFn, []⟩, 2, 0⟩
      [] 9 [] (.number 2) rfl rfl rfl rfl rfl rfl⟩

/-- C5: a value is falsey iff it is nil or the boolean false; an `OP_NOT`
step pushes the boolean `isFalsey v` for the popped `v` (hence `true`
exactly for nil and false, and `false` for every other value); and the
double negation `!!v` is the value `true` iff `v` is neither nil nor
false. -/
theorem falsey_iff_nil_or_false {Num : Type} (M : NumModel Num)
    (natEval : Nat → Nat → List (Value Num) → Value Num) :
    (∀ v : Value Num,
      isFalsey v = true ↔ (v = Value.nil ∨ v = Value.boolean false))
    ∧ (∀ (s : VMState Num) (f f₁ : CallFrame Num) (fs : List (CallFrame Num))
        (b : Nat) (stk : List (Value Num)) (v : Value Num),
        s.frames = f :: fs →
        readByte f = some (b, f₁) →
        decodeOp b = some OpCode.notOp →
        s.stack = stk ++ [v] →
        step M natEval s =
          StepResult.next
            { s with
              frames := f₁ :: fs,
              stack := stk ++ [Value.boolean (isFalsey v)] })
    ∧ (∀ v : Value Num,
        (Value.boolean (isFalsey (Value.boolean (isFalsey v) : Value Num)) :
            Value Num) = Value.boolean true ↔
          (v ≠ Value.nil ∧ v ≠ Value.boolean false)) := by
  refine ⟨?_, ?_, ?_⟩
  · intro v
    cases v with
    | nil => simp [isFalsey]
    | boolean b => cases b <;> simp [isFalsey]
    | number n => simp [isFalsey]
    | obj o => simp [isFalsey]
  · intro s f f₁ fs b stk v hf hb hop hstk
    simp only [step, hf, hb, hop]
    simp only [execOp]
    simp [pop, hstk, withFrame, push]
  · intro v
    cases v with
    | nil => simp [isFalsey]
    | boolean b => cases b <;> simp [isFalsey]
    | number n => simp [isFalsey]
    | obj o => simp [isFalsey]

/-- The function of the C5 witness: a single `OP_NOT`. -/
def c5Fn : ObjFunction Int := demoFn [19] [] [] none

/-- The state of the C5 witness: the number `0` on the stack. -/
def c5S : VMState Int :=
  { frames := [⟨⟨c5Fn, []⟩, 0, 0⟩], stack := [.number 0], globals := [],
    openUpvalues := [], uheap := [], out := [], err := [] }

/-- Witness for C5: the number `0` is not falsey, `OP_NOT` on it pushes
`false`, and `!!0` is `true`; the empty string is likewise truthy. -/
theorem falsey_iff_nil_or_false_witness :
    (isFalsey (Value.number (0 : Int)) = true ↔
      (Value.number (0 : Int) = Value.nil ∨
       Value.number (0 : Int) = Value.boolean false))
    ∧ (step intNumModel natNil c5S =
        StepResult.next
          { c5S with
            frames := [⟨⟨c5Fn, []⟩, 1, 0⟩],
            stack := [] ++ [Value.boolean (isFalsey (Value.number (0 : Int)))] })
    ∧ ((Value.boolean
          (isFalsey (Value.boolean
            (isFalsey (Value.obj (Obj.str "") : Value Int)) : Value Int)) :
          Value Int) = Value.boolean true ↔
        ((Value.obj (Obj.str "") : Value Int) ≠ Value.nil ∧
         (Value.obj (Obj.str "") : Value Int) ≠ Value.boolean false)) :=
  ⟨(falsey_iff_nil_or_false intNumModel natNil).1 (Value.number 0),
   (falsey_iff_nil_or_false intNumModel natNil).2.1 c5S
     ⟨⟨c5Fn, []⟩, 0, 0⟩ ⟨⟨c5Fn, []⟩, 1, 0⟩ [] 19 [] (.number 0)
     rfl rfl rfl rfl,
   (falsey_iff_nil_or_false intNumModel natNil).2.2 (Value.obj (Obj.str ""))⟩

/-- The function of the C1 evaluation: a single `OP_ADD` at source line 3. -/
def c1Fn : ObjFunction Int := demoFn [15] [] [3] none

/-- The state of the C1 evaluation: operands `1` (number) and `"a"`
(string) — a mixed pair. -/
def c1S : VMState Int :=
  { frames := [⟨⟨c1Fn, []⟩, 0, 0⟩],
    stack := [.number 1, .obj (.str "a")], globals := [],
    openUpvalues := [], uheap := [], out := [], err := [] }

/-- C1 (code bug, evaluated at the failing input): `OP_ADD` on the mixed
pair `1 + "a"` reports the runtime error "Operands must be two numbers or
two strings." with its stack trace and resets the stacks — but the
dispatch loop returns `INTERPRET_COMPILE_ERROR` (vm.c:319), not
`INTERPRET_RUNTIME_ERROR` as the claim states. -/
theorem add_mixed_returns_compile_error :
    step intNumModel natNil c1S =
      StepResult.done InterpretResult.compileError
        { frames := [], stack := [], globals := [], openUpvalues := [],
          uheap := [], out := [],
          err := ["Operands must be two numbers or two strings.",
                  "[line 3] in script"] } := by
  rfl

/-- The full-to-the-bound operand stack of the C2 counterexample:
64·256 slots in use. -/
def c2Full : VMState Int :=
  { frames := [], stack := List.replicate STACK_MAX Value.nil, globals := [],
    openUpvalues := [], uheap := [], out := [], err := [] }

/-- Counterexample to C2 as stated: with the operand stack exactly at its
64·256-slot bound, `push` writes a further value — the stack grows past
`STACK_MAX` — and no error is reported (stderr stays empty).  The C `push`
has no bound check. -/
theorem push_past_bound_unreported :
    c2Full.stack.length = STACK_MAX
    ∧ (push Value.nil c2Full).stack.length = STACK_MAX + 1
    ∧ (push Value.nil c2Full).err = [] := by
  refine ⟨?_, ?_, rfl⟩ <;> simp [c2Full, push]

/-- C2 as amended: exceeding the frame-stack bound of 64 frames is reported
("Stack overflow.", no frame pushed), while the operand-stack `push`
performs no bound check at all: pushing with `STACK_MAX` slots already in
use silently grows the stack past the bound. -/
theorem frame_bound_checked_push_unchecked {Num : Type}
    (s : VMState Num) (c : ObjClosure Num) (argc : Nat) :
    (s.frames.length = FRAMES_MAX → argc = c.function.arity →
      call c argc s = (false, runtimeError "Stack overflow." s))
    ∧ (∀ (v : Value Num) (s' : VMState Num), s'.stack.length = STACK_MAX →
        (push v s').stack.length = STACK_MAX + 1 ∧ (push v s').err = s'.err) := by
  constructor
  · intro hframes harity
    simp [call, harity, hframes]
  · intro v s' hlen
    simp [push, hlen]

/-- A closure with an empty chunk, for the C2 witness. -/
def c2Closure : ObjClosure Int := ⟨demoFn [] [] [] none, []⟩

/-- A state whose frame stack is exactly at the 64-frame bound. -/
def c2Frames : VMState Int :=
  { frames := List.replicate FRAMES_MAX ⟨c2Closure, 0, 0⟩, stack := [],
    globals := [], openUpvalues := [], uheap := [], out := [], err := [] }

/-- Witness for the amended C2: calling a zero-arity closure with 64 frames
active reports "Stack overflow.", and a push on the full `c2Full` stack
grows it to `STACK_MAX + 1` with stderr unchanged. -/
theorem frame_bound_checked_push_unchecked_witness :
    (call c2Closure 0 c2Frames =
      (false, runtimeError "Stack overflow." c2Frames))
    ∧ ((push Value.nil c2Full).stack.length = STACK_MAX + 1
       ∧ (push Value.nil c2Full).err = c2Full.err) :=
  ⟨(frame_bound_checked_push_unchecked c2Frames c2Closure 0).1
      (by simp [c2Frames]) rfl,
   (frame_bound_checked_push_unchecked c2Frames c2Closure 0).2
      Value.nil c2Full (by simp [c2Full])⟩

/-- C4: `callValue` dispatch — (1) a closure call with a wrong argument
count fails with the exact mismatch message; (2) a closure call with 64
frames active fails with "Stack overflow."; (3) a successful closure call
pushes a frame with `ip` at the start of the function's code (offset 0) and
`slots = stackTop − argc − 1`; (4) a native call pushes no frame and
replaces the callee and the `argc` arguments by the native's single result;
(5) calling any non-closure non-native value fails with "Can only call
functions and classes.". -/
theorem callValue_semantics {Num : Type}
    (natEval : Nat → Nat → List (Value Num) → Value Num) :
    (∀ (c : ObjClosure Num) (argc : Nat) (s : VMState Num),
      argc ≠ c.function.arity →
      callValue natEval (Value.obj (Obj.closure c)) argc s =
        (false, runtimeError ("Expected " ++ toString c.function.arity ++
          " arguments but got " ++ toString argc ++ ".") s))
    ∧ (∀ (c : ObjClosure Num) (argc : Nat) (s : VMState Num),
      argc = c.function.arity → s.frames.length = FRAMES_MAX →
      callValue natEval (Value.obj (Obj.closure c)) argc s =
        (false, runtimeError "Stack overflow." s))
    ∧ (∀ (c : ObjClosure Num) (argc : Nat) (s : VMState Num),
      argc = c.function.arity → s.frames.length ≠ FRAMES_MAX →
      callValue natEval (Value.obj (Obj.closure c)) argc s =
        (true, { s with
                 frames := ⟨c, 0, s.stack.length - argc - 1⟩ :: s.frames }))
    ∧ (∀ (nid argc : Nat) (s : VMState Num) (stk args : List (Value Num))
        (callee : Value Num),
      s.stack = stk ++ callee :: args → args.length = argc →
      callValue natEval (Value.obj (Obj.native nid)) argc s =
        (true, { s with
                 stack := stk ++ [natEval nid argc args],
                 frames := s.frames }))
    ∧ (∀ (v : Value Num) (argc : Nat) (s : VMState Num),
      (∀ c : ObjClosure Num, v ≠ Value.obj (Obj.closure c)) →
      (∀ nid : Nat, v ≠ Value.obj (Obj.native nid)) →
      callValue natEval v argc s =
        (false, runtimeError "Can only call functions and classes." s)) := by
  refine ⟨?_, ?_, ?_, ?_, ?_⟩
  · intro c argc s hne
    simp [callValue, call, hne]
  · intro c argc s harity hframes
    simp [callValue, call, harity, hframes]
  · intro c argc s harity hframes
    simp [callValue, call, harity, hframes]
  · intro nid argc s stk args callee hstk hargs
    subst hargs
    have hassoc : s.stack = (stk ++ [callee]) ++ args := by simp [hstk]
    have hlen : s.stack.length = stk.length + 1 + args.length := by
      simp [hstk]
      omega
    have hd : s.stack.length - args.length = (stk ++ [callee]).length := by
      simp
      omega
    have ht : s.stack.length - (args.length + 1) = stk.length := by omega
    simp only [callValue, hd, ht]
    rw [hassoc, List.drop_left]
    rw [show ((stk ++ [callee]) ++ args).take stk.length = stk from by
      rw [List.append_assoc, List.take_left' rfl]
      ]
    simp [push]
  · intro v argc s hnc hnn
    cases v with
    | nil => simp [callValue]
    | boolean b => simp [callValue]
    | number n => simp [callValue]
    | obj o =>
      cases o with
      | str st => simp [callValue]
      | function fn => simp [callValue]
      | native nid => exact absurd rfl (hnn nid)
      | closure c => exact absurd rfl (hnc c)

/-- A two-argument named function, for the C4 witness. -/
def c4Fn : ObjFunction Int := .mk 2 0 [] [] [] (some "f")

/-- An empty VM state over `Int`. -/
def emptyS : VMState Int :=
  { frames := [], stack := [], globals := [], openUpvalues := [],
    uheap := [], out := [], err := [] }

/-- The state of the C4 success witness: callee closure and two arguments
on the stack, one frame active. -/
def c4CallS : VMState Int :=
  { frames := [⟨⟨c4Fn, []⟩, 0, 0⟩],
    stack := [.obj (.closure ⟨c4Fn, []⟩), .number 1, .number 2],
    globals := [], openUpvalues := [], uheap := [], out := [], err := [] }

/-- The state of the C4 native witness: native callee and one argument. -/
def c4NatS : VMState Int :=
  { frames := [], stack := [.obj (.native 0), .number 7], globals := [],
    openUpvalues := [], uheap := [], out := [], err := [] }

/-- Witness for C4: all five `callValue` cases at concrete inputs —
arity mismatch (1 arg for 2), stack overflow at 64 frames, a successful
call placing `slots` under the callee, a native call collapsing callee and
argument into the result, and a call on `nil`. -/
theorem callValue_semantics_witness :
    (callValue natNil (Value.obj (Obj.closure ⟨c4Fn, []⟩)) 1 emptyS =
      (false, runtimeError ("Expected " ++ toString (2 : Nat) ++
        " arguments but got " ++ toString (1 : Nat) ++ ".") emptyS))
    ∧ (callValue natNil (Value.obj (Obj.closure ⟨c4Fn, []⟩)) 2 c2Frames =
      (false, runtimeError "Stack overflow." c2Frames))
    ∧ (callValue natNil (Value.obj (Obj.closure ⟨c4Fn, []⟩)) 2 c4CallS =
      (true, { c4CallS with
               frames := ⟨⟨c4Fn, []⟩, 0, c4CallS.stack.length - 2 - 1⟩ ::
                 c4CallS.frames }))
    ∧ (callValue natNil (Value.obj (Obj.native 0)) 1 c4NatS =
      (true, { c4NatS with
               stack := [] ++ [natNil 0 1 [.number 7]],
               frames := c4NatS.frames }))
    ∧ (callValue natNil Value.nil 0 emptyS =
      (false, runtimeError "Can only call functions and classes." emptyS)) :=
  ⟨(callValue_semantics natNil).1 ⟨c4Fn, []⟩ 1 emptyS (by decide),
   (callValue_semantics natNil).2.1 ⟨c4Fn, []⟩ 2 c2Frames rfl
     (by simp [c2Frames]),
   (callValue_semantics natNil).2.2.1 ⟨c4Fn, []⟩ 2 c4CallS rfl
     (by decide),
   (callValue_semantics natNil).2.2.2.1 0 1 c4NatS []
     [.number 7] (.obj (.native 0)) rfl rfl,
   (callValue_semantics natNil).2.2.2.2 Value.nil 0 emptyS
     (fun c => by simp) (fun nid => by simp)⟩

/-- The function of the C9 evaluation: `OP_ADD` at source line 7 inside the
named function `g`. -/
def c9FnG : ObjFunction Int := demoFn [15] [] [7] (some "g")

/-- The enclosing script function of the C9 evaluation (its frame sits at
`ip = 5`; its line table gives line 3 for offset 4). -/
def c9FnS : ObjFunction Int := demoFn [0, 0, 0, 0, 0] [] [1, 1, 2, 2, 3] none

/-- The state of the C9 evaluation: two frames (script below `g`), a mixed
`OP_ADD` about to fault, a bound global, a line of stdout, and one open
upvalue. -/
def c9S : VMState Int :=
  { frames := [⟨⟨c9FnG, []⟩, 0, 1⟩, ⟨⟨c9FnS, []⟩, 5, 0⟩],
    stack := [.obj (.closure ⟨c9FnG, []⟩), .number 1, .obj (.str "a")],
    globals := [("g", .number 9)], openUpvalues := [0],
    uheap := [⟨ULoc.stackSlot 1, .nil⟩], out := ["out0"], err := [] }

/-- C9 evaluated at the failing input: the faulting instruction appends the
formatted message and then one `[line L] in name()` line per frame, top
down (`L` from the line table at `ip − 1`), resets the operand stack, the
frame stack and the open-upvalue list (globals, heap and stdout survive) —
but the dispatch returns `INTERPRET_COMPILE_ERROR` on this `OP_ADD` path
(vm.c:319), where the claim says interpretation returns RUNTIME_ERROR. -/
theorem runtime_error_reporting_eval :
    step intNumModel natNil c9S =
      StepResult.done InterpretResult.compileError
        ({ frames := [], stack := [], globals := [("g", .number 9)],
           openUpvalues := [], uheap := [⟨ULoc.stackSlot 1, .nil⟩],
           out := ["out0"],
           err := ["Operands must be two numbers or two strings.",
                   "[line 7] in g()", "[line 3] in script"] } : VMState Int) := by
  rfl

/-! ### Open-upvalue list: locations and the ordering invariant -/

/-- The stack location of cell `id`, provided `id` is a valid heap index and
the cell is open. -/
def openLocOf (uheap : List (UpvalueCell Num)) (id : Nat) : Option Nat :=
  match uheap[id]? with
  | some cell =>
    match cell.location with
    | ULoc.stackSlot i => some i
    | ULoc.ownClosed => none
  | none => none

/-- Cell `id` is open at a location `≥ last` (the closing condition of
`closeUpvalues`). -/
def locGe (uheap : List (UpvalueCell Num)) (last id : Nat) : Bool :=
  match openLocOf uheap id with
  | some i => decide (last ≤ i)
  | none => false

/-- Cell `id` is open at a location `> lcl` (the walking condition of
`captureUpvalue`). -/
def locGt (uheap : List (UpvalueCell Num)) (lcl id : Nat) : Bool :=
  match openLocOf uheap id with
  | some i => decide (lcl < i)
  | none => false

/-- The head-vs-next comparison of the ordering invariant: the next listed
cell (if any) sits strictly below location `i`. -/
def headDomB (uheap : List (UpvalueCell Num)) (i : Nat) : List Nat → Bool
  | [] => true
  | id₂ :: _ =>
    match openLocOf uheap id₂ with
    | some j => decide (j < i)
    | none => false

/-- The open-upvalue list invariant of spec §3/§4.F: every listed id is an
open cell and the locations strictly decrease down the list (hence at most
one entry per stack address). -/
def openDescB (uheap : List (UpvalueCell Num)) : List Nat → Bool
  | [] => true
  | id :: rest =>
    match openLocOf uheap id with
    | none => false
    | some i => headDomB uheap i rest && openDescB uheap rest

theorem openLocOf_lt_length {uheap : List (UpvalueCell Num)} {id i : Nat}
    (h : openLocOf uheap id = some i) : id < uheap.length := by
  cases hg : uheap[id]? with
  | none => simp [openLocOf, hg] at h
  | some cell => exact (List.getElem?_eq_some.mp hg).1

theorem openLocOf_append_left {uheap l₂ : List (UpvalueCell Num)} {id : Nat}
    (h : id < uheap.length) :
    openLocOf (uheap ++ l₂) id = openLocOf uheap id := by
  simp [openLocOf, List.getElem?_append_left h]

theorem openLocOf_set_ne {uheap : List (UpvalueCell Num)}
    {id id' : Nat} (c : UpvalueCell Num) (h : id ≠ id') :
    openLocOf (uheap.set id c) id' = openLocOf uheap id' := by
  simp [openLocOf, List.getElem?_set_ne h]

theorem openLocOf_concat_self {uheap : List (UpvalueCell Num)} {lcl : Nat}
    {v : Value Num} :
    openLocOf (uheap ++ [⟨ULoc.stackSlot lcl, v⟩]) uheap.length = some lcl := by
  simp [openLocOf, List.getElem?_concat_length]

/-- Destructing the invariant at a cons: the head is open at some `i`, the
tail satisfies the invariant, and every tail cell sits strictly below `i`. -/
theorem openDescB_head {uheap : List (UpvalueCell Num)} :
    ∀ {id : Nat} {rest : List Nat}, openDescB uheap (id :: rest) = true →
    ∃ i, openLocOf uheap id = some i ∧ openDescB uheap rest = true ∧
      ∀ id' ∈ rest, ∃ j, openLocOf uheap id' = some j ∧ j < i := by
  intro id rest
  induction rest generalizing id with
  | nil =>
    intro h
    cases hl : openLocOf uheap id with
    | none => simp [openDescB, hl] at h
    | some i => exact ⟨i, rfl, rfl, by simp⟩
  | cons id₂ t ih =>
    intro h
    cases hl : openLocOf uheap id with
    | none => simp [openDescB, hl] at h
    | some i =>
      cases hl₂ : openLocOf uheap id₂ with
      | none => simp [openDescB, headDomB, hl, hl₂] at h
      | some j =>
        simp only [openDescB, headDomB, hl, hl₂, Bool.and_eq_true,
          decide_eq_true_eq] at h
        obtain ⟨hji, hrest⟩ := h
        have hrest' : openDescB uheap (id₂ :: t) = true := by
          simp only [openDescB, headDomB, hl₂, Bool.and_eq_true]
          exact hrest
        obtain ⟨j', hj', ht, hdom⟩ := ih hrest'
        rw [hl₂] at hj'
        obtain rfl : j = j' := by exact Option.some.inj hj'
        refine ⟨i, rfl, hrest', ?_⟩
        intro id' hmem
        rcases List.mem_cons.mp hmem with rfl | hmem'
        · exact ⟨j, hl₂, hji⟩
        · obtain ⟨k, hk, hkj⟩ := hdom id' hmem'
          exact ⟨k, hk, hkj.trans hji⟩

/-- Rebuilding the invariant at a cons. -/
theorem openDescB_cons {uheap : List (UpvalueCell Num)} {id i : Nat}
    {rest : List Nat} (hid : openLocOf uheap id = some i)
    (hrest : openDescB uheap rest = true)
    (hhead : ∀ id₂ ∈ rest.head?, ∃ j, openLocOf uheap id₂ = some j ∧ j < i) :
    openDescB uheap (id :: rest) = true := by
  cases rest with
  | nil => simp [openDescB, headDomB, hid]
  | cons id₂ t =>
    obtain ⟨j, hj, hji⟩ := hhead id₂ (by simp)
    simp only [openDescB, headDomB, hid, hj, Bool.and_eq_true,
      decide_eq_true_eq]
    constructor
    · exact hji
    · simpa [openDescB, headDomB, hj] using hrest

/-- The invariant only looks at the locations of the listed cells. -/
theorem openDescB_congr {h₁ h₂ : List (UpvalueCell Num)} :
    ∀ {l : List Nat}, (∀ id ∈ l, openLocOf h₁ id = openLocOf h₂ id) →
    openDescB h₁ l = openDescB h₂ l := by
  intro l
  induction l with
  | nil => intro _; rfl
  | cons id rest ih =>
    intro hcong
    have hid : openLocOf h₁ id = openLocOf h₂ id := hcong id (by simp)
    have hrest : openDescB h₁ rest = openDescB h₂ rest :=
      ih fun id' hm => hcong id' (List.mem_cons_of_mem _ hm)
    cases hl : openLocOf h₂ id with
    | none => simp [openDescB, hid, hl]
    | some i =>
      have hdom : headDomB h₁ i rest = headDomB h₂ i rest := by
        cases rest with
        | nil => rfl
        | cons id₂ t =>
          have : openLocOf h₁ id₂ = openLocOf h₂ id₂ := hcong id₂ (by simp)
          simp [headDomB, this]
      simp [openDescB, hid, hl, hdom, hrest]

/-- Opening the head cell of the open list: a valid open location yields
the heap cell itself. -/
theorem openLocOf_elim {uheap : List (UpvalueCell Num)} {id i : Nat}
    (h : openLocOf uheap id = some i) :
    ∃ cell, uheap[id]? = some cell ∧ cell.location = ULoc.stackSlot i := by
  cases hg : uheap[id]? with
  | none => simp [openLocOf, hg] at h
  | some cell =>
    cases hcl : cell.location with
    | stackSlot k =>
      simp only [openLocOf, hg, hcl] at h
      exact ⟨cell, rfl, by rw [hcl, Option.some.inj h]⟩
    | ownClosed => simp [openLocOf, hg, hcl] at h

/-- Characterization of `closeUpvalues` under the list invariant: the ids
at locations `≥ last` are exactly the ones removed, each of their heap
cells is rewritten to `location = ownClosed` with the stack value at its
old location copied into `closed`, and every other cell (listed below
`last`, or unlisted) is untouched. -/
theorem closeUpvalues_spec (stack : List (Value Num)) (last : Nat) :
    ∀ (l : List Nat) (uheap : List (UpvalueCell Num)),
    openDescB uheap l = true →
    (∀ id i, id ∈ l → openLocOf uheap id = some i → i < stack.length) →
    ∃ h, closeUpvalues stack last uheap l =
        some (h, l.filter (fun id => ! locGe uheap last id))
      ∧ (∀ id i, id ∈ l → openLocOf uheap id = some i → last ≤ i →
          h[id]? = some ⟨ULoc.ownClosed, stack.getD i Value.nil⟩)
      ∧ (∀ id, ¬(id ∈ l ∧ locGe uheap last id = true) →
          h[id]? = uheap[id]?) := by
  intro l
  induction l with
  | nil =>
    intro uheap _ _
    exact ⟨uheap, by simp [closeUpvalues], by simp, fun id _ => rfl⟩
  | cons id rest ih =>
    intro uheap hdesc hbound
    obtain ⟨i, hi, hrest, hdom⟩ := openDescB_head hdesc
    obtain ⟨cell, hcell, hloc⟩ := openLocOf_elim hi
    have hidlt : id < uheap.length := openLocOf_lt_length hi
    have hid_not_mem : id ∉ rest := by
      intro hm
      obtain ⟨j, hj, hji⟩ := hdom id hm
      rw [hi] at hj
      obtain rfl : i = j := Option.some.inj hj
      exact absurd hji (lt_irrefl i)
    by_cases hge : last ≤ i
    · -- the head is closed and the loop continues
      have hilt : i < stack.length := hbound id i (by simp) hi
      have hv : stack[i]? = some (stack.getD i Value.nil) := by
        rw [List.getElem?_eq_getElem hilt, List.getD_eq_getElem stack _ hilt]
      set uheap' := uheap.set id ⟨ULoc.ownClosed, stack.getD i Value.nil⟩
        with huh
      have hcong : ∀ id' ∈ rest, openLocOf uheap' id' = openLocOf uheap id' := by
        intro id' hm
        exact openLocOf_set_ne _ (fun he => hid_not_mem (he ▸ hm))
      have hdesc' : openDescB uheap' rest = true := by
        rw [openDescB_congr hcong]
        exact hrest
      have hbound' : ∀ id' i', id' ∈ rest → openLocOf uheap' id' = some i' →
          i' < stack.length := by
        intro id' i' hm hl'
        exact hbound id' i' (List.mem_cons_of_mem _ hm) (hcong id' hm ▸ hl')
      obtain ⟨h, heq, hclosed, huntouched⟩ := ih uheap' hdesc' hbound'
      refine ⟨h, ?_, ?_, ?_⟩
      · have hstep : closeUpvalues stack last uheap (id :: rest) =
            closeUpvalues stack last uheap' rest := by
          simp only [closeUpvalues, hcell, hloc, hv, if_pos hge]
        rw [hstep, heq]
        have hfid : locGe uheap last id = true := by
          simp [locGe, hi, hge]
        have : (id :: rest).filter (fun id' => ! locGe uheap last id') =
            rest.filter (fun id' => ! locGe uheap last id') := by
          simp [hfid]
        rw [this]
        congr 2
        exact List.filter_congr fun id' hm => by simp [locGe, hcong id' hm]
      · intro id₀ i₀ hmem hl₀ hge₀
        rcases List.mem_cons.mp hmem with rfl | hmem'
        · obtain rfl : i = i₀ := by rw [hi] at hl₀; exact Option.some.inj hl₀
          have : h[id₀]? = uheap'[id₀]? :=
            huntouched id₀ (by simp [hid_not_mem])
          rw [this, huh, List.getElem?_set_self hidlt]
        · exact hclosed id₀ i₀ hmem' (hcong id₀ hmem' ▸ hl₀) hge₀
      · intro id₀ hniq
        have hne : id₀ ≠ id := by
          rintro rfl
          exact hniq ⟨by simp, by simp [locGe, hi, hge]⟩
        have h1 : h[id₀]? = uheap'[id₀]? := by
          apply huntouched
          rintro ⟨hm, hge'⟩
          refine hniq ⟨List.mem_cons_of_mem _ hm, ?_⟩
          rw [← hge']
          simp [locGe, hcong id₀ hm]
        rw [h1, huh, List.getElem?_set_ne (fun he => hne he.symm)]
    · -- the head sits below `last`: the loop stops, nothing is closed
      have hstep : closeUpvalues stack last uheap (id :: rest) =
          some (uheap, id :: rest) := by
        simp only [closeUpvalues, hcell, hloc, if_neg hge]
      refine ⟨uheap, ?_, ?_, fun id₀ _ => rfl⟩
      · rw [hstep]
        have hfid : locGe uheap last id = false := by
          simp [locGe, hi]
          omega
        have hall : ∀ id' ∈ rest, (! locGe uheap last id') = true := by
          intro id' hm
          obtain ⟨j, hj, hji⟩ := hdom id' hm
          simp [locGe, hj]
          omega
        rw [List.filter_cons_of_pos (by simp [hfid]), List.filter_eq_self.mpr hall]
      · intro id₀ i₀ hmem hl₀ hge₀
        rcases List.mem_cons.mp hmem with rfl | hmem'
        · rw [hi] at hl₀
          obtain rfl : i = i₀ := Option.some.inj hl₀
          omega
        · obtain ⟨j, hj, hji⟩ := hdom id₀ hmem'
          rw [hl₀] at hj
          obtain rfl : i₀ = j := Option.some.inj hj
          omega

/-- Every listed open location lies below `n` (stack-validity of the open
list), as an executable check. -/
def locsBelowB (uheap : List (UpvalueCell Num)) (n : Nat) (l : List Nat) :
    Bool :=
  l.all fun id =>
    match openLocOf uheap id with
    | some i => decide (i < n)
    | none => true

theorem locsBelowB_spec {uheap : List (UpvalueCell Num)} {n : Nat}
    {l : List Nat} (h : locsBelowB uheap n l = true) :
    ∀ id i, id ∈ l → openLocOf uheap id = some i → i < n := by
  intro id i hm hl
  have hx := List.all_eq_true.mp h id hm
  rw [hl] at hx
  simpa using hx

/-- C6: for every stack address `last`, `closeUpvalues` removes from the
open-upvalue list exactly the entries whose location is `≥ last` (the
remaining list is the sublist of entries at locations `< last`, in order
and unchanged); each removed entry's heap cell gets the stack value at its
location copied into its `closed` field and its `location` repointed at
that field (`ownClosed`); every other cell is untouched.  Hypotheses: the
open list satisfies its ordering invariant and points into the live
stack. -/
theorem closeUpvalues_removes_exactly_ge {Num : Type}
    (stack : List (Value Num)) (last : Nat) (l : List Nat)
    (uheap : List (UpvalueCell Num))
    (hdesc : openDescB uheap l = true)
    (hbound : locsBelowB uheap stack.length l = true) :
    ∃ h, closeUpvalues stack last uheap l =
        some (h, l.filter (fun id => ! locGe uheap last id))
      ∧ (∀ id i, id ∈ l → openLocOf uheap id = some i → last ≤ i →
          h[id]? = some ⟨ULoc.ownClosed, stack.getD i Value.nil⟩)
      ∧ (∀ id, ¬(id ∈ l ∧ locGe uheap last id = true) →
          h[id]? = uheap[id]?) :=
  closeUpvalues_spec stack last l uheap hdesc (locsBelowB_spec hbound)

/-- The heap of the C6 witness: three open cells at stack slots 2, 0, 1. -/
def c6H : List (UpvalueCell Int) :=
  [⟨ULoc.stackSlot 2, .nil⟩, ⟨ULoc.stackSlot 0, .nil⟩, ⟨ULoc.stackSlot 1, .nil⟩]

/-- The stack of the C6 witness. -/
def c6Stack : List (Value Int) := [.number 10, .number 20, .number 30]

/-- Witness for C6: closing at `last = 1` over the open list `[0, 2, 1]`
(locations `[2, 1, 0]`) removes ids 0 and 2 and keeps id 1. -/
theorem closeUpvalues_removes_exactly_ge_witness :
    ∃ h, closeUpvalues c6Stack 1 c6H [0, 2, 1] =
        some (h, [0, 2, 1].filter (fun id => ! locGe c6H 1 id))
      ∧ (∀ id i, id ∈ [0, 2, 1] → openLocOf c6H id = some i → 1 ≤ i →
          h[id]? = some ⟨ULoc.ownClosed, c6Stack.getD i Value.nil⟩)
      ∧ (∀ id, ¬(id ∈ [0, 2, 1] ∧ locGe c6H 1 id = true) →
          h[id]? = c6H[id]?) :=
  closeUpvalues_removes_exactly_ge c6Stack 1 [0, 2, 1] c6H rfl rfl

/-- Characterization of `captureUpvalue` under the list invariant: the walk
succeeds; the returned list still satisfies the invariant; capturing an
address that already has an open upvalue returns that cell with heap and
list unchanged; capturing a fresh address allocates one new open cell and
inserts its id at the sorted position (after the entries above `lcl`,
before the rest). -/
theorem captureUpvalue_spec (lcl : Nat) :
    ∀ (l : List Nat) (uheap : List (UpvalueCell Num)),
    openDescB uheap l = true →
    ∃ id h l', captureUpvalue lcl uheap l = some (id, h, l')
      ∧ openDescB h l' = true
      ∧ (∀ id' ∈ l', id' ∈ l ∨ id' = uheap.length)
      ∧ ((∃ id₀ ∈ l, openLocOf uheap id₀ = some lcl) →
          h = uheap ∧ l' = l ∧ id ∈ l ∧ openLocOf uheap id = some lcl)
      ∧ ((∀ id₀ ∈ l, openLocOf uheap id₀ ≠ some lcl) →
          h = uheap ++ [⟨ULoc.stackSlot lcl, Value.nil⟩] ∧ id = uheap.length
          ∧ l' = l.takeWhile (locGt uheap lcl) ++
              uheap.length :: l.dropWhile (locGt uheap lcl)) := by
  intro l
  induction l with
  | nil =>
    intro uheap _
    refine ⟨uheap.length, uheap ++ [⟨ULoc.stackSlot lcl, Value.nil⟩],
      [uheap.length], by simp [captureUpvalue], ?_, by simp, by simp, by simp⟩
    simp [openDescB, headDomB, openLocOf_concat_self]
  | cons id rest ih =>
    intro uheap hdesc
    obtain ⟨i, hi, hrest, hdom⟩ := openDescB_head hdesc
    obtain ⟨cell, hcell, hloc⟩ := openLocOf_elim hi
    have hidlt : id < uheap.length := openLocOf_lt_length hi
    have hGt : locGt uheap lcl id = decide (lcl < i) := by simp [locGt, hi]
    by_cases hlt : lcl < i
    · -- keep walking past the head
      obtain ⟨rid, h, rest', heq, hdesc', hmem', hfound', hnotfound'⟩ :=
        ih uheap hrest
      have hstep : captureUpvalue lcl uheap (id :: rest) =
          some (rid, h, id :: rest') := by
        simp only [captureUpvalue, hcell, hloc, if_pos hlt, heq]
      have hid_ne : openLocOf uheap id ≠ some lcl := by
        rw [hi]
        intro hx
        obtain rfl : i = lcl := Option.some.inj hx
        exact absurd hlt (lt_irrefl i)
      refine ⟨rid, h, id :: rest', hstep, ?_, ?_, ?_, ?_⟩
      · -- invariant of `id :: rest'`
        by_cases hfound : ∃ id₀ ∈ rest, openLocOf uheap id₀ = some lcl
        · obtain ⟨hh, hl', _, _⟩ := hfound' hfound
          subst hh
          subst hl'
          exact hdesc
        · push_neg at hfound
          obtain ⟨hh, hrid, hl'⟩ := hnotfound' hfound
          subst hh
          refine openDescB_cons (i := i) ?_ hdesc' ?_
          · rw [openLocOf_append_left hidlt]
            exact hi
          · intro id₂ hh₂
            have hmem₂ : id₂ ∈ rest' := List.mem_of_mem_head? hh₂
            rcases hmem' id₂ hmem₂ with hin | hfresh
            · obtain ⟨j, hj, hji⟩ := hdom id₂ hin
              refine ⟨j, ?_, hji⟩
              rw [openLocOf_append_left (openLocOf_lt_length hj)]
              exact hj
            · subst hfresh
              exact ⟨lcl, openLocOf_concat_self, hlt⟩
      · intro id' hm
        rcases List.mem_cons.mp hm with rfl | hm'
        · exact Or.inl (by simp)
        · rcases hmem' id' hm' with hin | hfresh
          · exact Or.inl (List.mem_cons_of_mem _ hin)
          · exact Or.inr hfresh
      · rintro ⟨id₀, hm₀, hl₀⟩
        rcases List.mem_cons.mp hm₀ with rfl | hm₀'
        · exact absurd hl₀ hid_ne
        · obtain ⟨hh, hl', hridmem, hridloc⟩ := hfound' ⟨id₀, hm₀', hl₀⟩
          exact ⟨hh, by rw [hl'], List.mem_cons_of_mem _ hridmem, hridloc⟩
      · intro hnone
        have hnone' : ∀ id₀ ∈ rest, openLocOf uheap id₀ ≠ some lcl :=
          fun id₀ hm => hnone id₀ (List.mem_cons_of_mem _ hm)
        obtain ⟨hh, hrid, hl'⟩ := hnotfound' hnone'
        refine ⟨hh, hrid, ?_⟩
        rw [List.takeWhile_cons_of_pos (by rw [hGt]; simpa using hlt),
          List.dropWhile_cons_of_pos (by rw [hGt]; simpa using hlt), hl']
        simp
    · by_cases hieq : i = lcl
      · -- found: an open upvalue already watches `lcl`
        have hstep : captureUpvalue lcl uheap (id :: rest) =
            some (id, uheap, id :: rest) := by
          simp only [captureUpvalue, hcell, hloc, if_neg hlt, if_pos hieq]
        refine ⟨id, uheap, id :: rest, hstep, hdesc,
          fun id' hm => Or.inl hm, ?_, ?_⟩
        · intro _
          exact ⟨rfl, rfl, by simp, by rw [hi, hieq]⟩
        · intro hnone
          exact absurd (by rw [hi, hieq]) (hnone id (by simp))
      · -- insert a fresh open cell before the head
        have hilt : i < lcl := by omega
        have hstep : captureUpvalue lcl uheap (id :: rest) =
            some (uheap.length, uheap ++ [⟨ULoc.stackSlot lcl, Value.nil⟩],
              uheap.length :: id :: rest) := by
          simp only [captureUpvalue, hcell, hloc, if_neg hlt, if_neg hieq]
        have hcong : ∀ id' ∈ id :: rest,
            openLocOf (uheap ++ [(⟨ULoc.stackSlot lcl, Value.nil⟩ : UpvalueCell Num)]) id' =
              openLocOf uheap id' := by
          intro id' hm
          rcases List.mem_cons.mp hm with rfl | hm'
          · exact openLocOf_append_left hidlt
          · obtain ⟨j, hj, _⟩ := hdom id' hm'
            exact openLocOf_append_left (openLocOf_lt_length hj)
        refine ⟨uheap.length, uheap ++ [⟨ULoc.stackSlot lcl, Value.nil⟩],
          uheap.length :: id :: rest, hstep, ?_, ?_, ?_, ?_⟩
        · refine openDescB_cons (i := lcl) openLocOf_concat_self ?_ ?_
          · rw [openDescB_congr hcong]
            exact hdesc
          · intro id₂ hh₂
            have hid₂ : id = id₂ := by simpa using hh₂
            subst hid₂
            refine ⟨i, ?_, hilt⟩
            rw [hcong id (by simp)]
            exact hi
        · intro id' hm
          rcases List.mem_cons.mp hm with rfl | hm'
          · exact Or.inr rfl
          · exact Or.inl hm'
        · rintro ⟨id₀, hm₀, hl₀⟩
          rcases List.mem_cons.mp hm₀ with rfl | hm₀'
          · rw [hi] at hl₀
            exact absurd (Option.some.inj hl₀) hieq
          · obtain ⟨j, hj, hji⟩ := hdom id₀ hm₀'
            rw [hl₀] at hj
            obtain rfl : lcl = j := Option.some.inj hj
            omega
        · intro _
          refine ⟨rfl, rfl, ?_⟩
          rw [List.takeWhile_cons_of_neg (by rw [hGt]; simpa using hlt),
            List.dropWhile_cons_of_neg (by rw [hGt]; simpa using hlt)]
          simp

/-- Strictly descending locations are pairwise distinct: at most one open
upvalue per stack address. -/
theorem openDescB_locs_distinct {uheap : List (UpvalueCell Num)} :
    ∀ {l : List Nat}, openDescB uheap l = true →
    l.Pairwise (fun a b => openLocOf uheap a ≠ openLocOf uheap b) := by
  intro l
  induction l with
  | nil => intro _; exact List.Pairwise.nil
  | cons id rest ih =>
    intro h
    obtain ⟨i, hi, hrest, hdom⟩ := openDescB_head h
    refine List.Pairwise.cons ?_ (ih hrest)
    intro id' hm
    obtain ⟨j, hj, hji⟩ := hdom id' hm
    rw [hi, hj]
    intro hx
    obtain rfl : i = j := Option.some.inj hx
    omega

/-- C7: under the ordering invariant the open-upvalue list has at most one
entry per stack address, and a `captureUpvalue` call preserves the
invariant: capturing an address that already has an open upvalue returns
that same cell with heap and list unchanged, and capturing a new address
allocates exactly one new open cell and inserts its id at the sorted
position. -/
theorem captureUpvalue_preserves_invariant {Num : Type} (lcl : Nat)
    (l : List Nat) (uheap : List (UpvalueCell Num))
    (hdesc : openDescB uheap l = true) :
    l.Pairwise (fun a b => openLocOf uheap a ≠ openLocOf uheap b)
    ∧ ∃ id h l', captureUpvalue lcl uheap l = some (id, h, l')
      ∧ openDescB h l' = true
      ∧ ((∃ id₀ ∈ l, openLocOf uheap id₀ = some lcl) →
          h = uheap ∧ l' = l ∧ id ∈ l ∧ openLocOf uheap id = some lcl)
      ∧ ((∀ id₀ ∈ l, openLocOf uheap id₀ ≠ some lcl) →
          h = uheap ++ [⟨ULoc.stackSlot lcl, Value.nil⟩] ∧ id = uheap.length
          ∧ l' = l.takeWhile (locGt uheap lcl) ++
              uheap.length :: l.dropWhile (locGt uheap lcl)) := by
  refine ⟨openDescB_locs_distinct hdesc, ?_⟩
  obtain ⟨id, h, l', heq, hd, _, hfound, hnotfound⟩ :=
    captureUpvalue_spec lcl l uheap hdesc
  exact ⟨id, h, l', heq, hd, hfound, hnotfound⟩

/-- The heap of the C7 witness: open cells at stack slots 5 and 3. -/
def c7H : List (UpvalueCell Int) :=
  [⟨ULoc.stackSlot 5, .nil⟩, ⟨ULoc.stackSlot 3, .nil⟩]

/-- Witness for C7: capturing slot 4 over the open list `[0, 1]`
(locations `[5, 3]`), where no cell watches slot 4 yet. -/
theorem captureUpvalue_preserves_invariant_witness :
    [0, 1].Pairwise (fun a b => openLocOf c7H a ≠ openLocOf c7H b)
    ∧ ∃ id h l', captureUpvalue 4 c7H [0, 1] = some (id, h, l')
      ∧ openDescB h l' = true
      ∧ ((∃ id₀ ∈ [0, 1], openLocOf c7H id₀ = some 4) →
          h = c7H ∧ l' = [0, 1] ∧ id ∈ [0, 1] ∧ openLocOf c7H id = some 4)
      ∧ ((∀ id₀ ∈ [0, 1], openLocOf c7H id₀ ≠ some 4) →
          h = c7H ++ [⟨ULoc.stackSlot 4, Value.nil⟩] ∧ id = c7H.length
          ∧ l' = [0, 1].takeWhile (locGt c7H 4) ++
              c7H.length :: [0, 1].dropWhile (locGt c7H 4)) :=
  captureUpvalue_preserves_invariant 4 [0, 1] c7H rfl

/-- C8: an `OP_RETURN` step pops the result, closes exactly the open
upvalues at or above the returning frame's `slots` base (each with the
stack value copied into its cell), and drops the frame; with frames left
it truncates the stack to the `slots` base, pushes the result there and
continues in the caller; with no frame left it pops the script closure and
stops with `OK`. -/
theorem opReturn_semantics {Num : Type} (M : NumModel Num)
    (natEval : Nat → Nat → List (Value Num) → Value Num)
    (s : VMState Num) (f f₁ : CallFrame Num) (fs : List (CallFrame Num))
    (b : Nat) (stk : List (Value Num)) (result : Value Num)
    (hf : s.frames = f :: fs)
    (hb : readByte f = some (b, f₁))
    (hop : decodeOp b = some OpCode.ret)
    (hstk : s.stack = stk ++ [result])
    (hdesc : openDescB s.uheap s.openUpvalues = true)
    (hbound : locsBelowB s.uheap stk.length s.openUpvalues = true) :
    ∃ h, closeUpvalues stk f₁.slots s.uheap s.openUpvalues =
        some (h, s.openUpvalues.filter (fun id => ! locGe s.uheap f₁.slots id))
      ∧ (∀ id i, id ∈ s.openUpvalues → openLocOf s.uheap id = some i →
          f₁.slots ≤ i → h[id]? = some ⟨ULoc.ownClosed, stk.getD i Value.nil⟩)
      ∧ (∀ (g : CallFrame Num) (gs : List (CallFrame Num)), fs = g :: gs →
          step M natEval s = StepResult.next
            { s with frames := fs, stack := stk.take f₁.slots ++ [result],
                     uheap := h,
                     openUpvalues := s.openUpvalues.filter
                       (fun id => ! locGe s.uheap f₁.slots id) })
      ∧ (∀ (stk₀ : List (Value Num)) (cv : Value Num),
          fs = [] → stk = stk₀ ++ [cv] →
          step M natEval s = StepResult.done InterpretResult.ok
            { s with frames := [], stack := stk₀, uheap := h,
                     openUpvalues := s.openUpvalues.filter
                       (fun id => ! locGe s.uheap f₁.slots id) }) := by
  obtain ⟨h, heq, hclosed, _⟩ :=
    closeUpvalues_spec stk f₁.slots s.openUpvalues s.uheap hdesc
      (locsBelowB_spec hbound)
  refine ⟨h, heq, hclosed, ?_, ?_⟩
  · intro g gs hfs
    subst hfs
    simp only [step, hf, hb, hop]
    simp only [execOp]
    simp [pop, hstk, withFrame, push, heq]
  · intro stk₀ cv hfs hstk₀
    subst hfs
    subst hstk₀
    simp only [step, hf, hb, hop]
    simp only [execOp]
    simp [pop, hstk, withFrame, heq]

/-- The returning function of the C8 witness (`OP_RETURN`, slots base 1). -/
def c8FnR : ObjFunction Int := demoFn [28] [] [4] (some "r")

/-- The script function of the C8 witness. -/
def c8FnS : ObjFunction Int := demoFn [0, 0, 0] [] [1, 1, 1] none

/-- The state of the C8 witness: frame of `r` (slots base 1) over the
script frame; stack = [script closure, captured local 42, result 7]; one
open upvalue watching slot 1. -/
def c8S : VMState Int :=
  { frames := [⟨⟨c8FnR, []⟩, 0, 1⟩, ⟨⟨c8FnS, []⟩, 2, 0⟩],
    stack := [.obj (.closure ⟨c8FnS, []⟩), .number 42, .number 7],
    globals := [], openUpvalues := [0],
    uheap := [⟨ULoc.stackSlot 1, .nil⟩], out := [], err := [] }

/-- Witness for C8: the `OP_RETURN` step of `c8S` closes the upvalue at
slot 1 (copying 42 into its cell), drops the frame, truncates the stack to
the slots base and pushes the result 7, continuing in the script frame. -/
theorem opReturn_semantics_witness :
    ∃ h, closeUpvalues [Value.obj (Obj.closure ⟨c8FnS, []⟩), Value.number 42]
        (⟨⟨c8FnR, []⟩, 1, 1⟩ : CallFrame Int).slots c8S.uheap c8S.openUpvalues =
        some (h, c8S.openUpvalues.filter
          (fun id => ! locGe c8S.uheap (⟨⟨c8FnR, []⟩, 1, 1⟩ : CallFrame Int).slots id))
      ∧ (∀ id i, id ∈ c8S.openUpvalues → openLocOf c8S.uheap id = some i →
          (⟨⟨c8FnR, []⟩, 1, 1⟩ : CallFrame Int).slots ≤ i →
          h[id]? = some ⟨ULoc.ownClosed,
            [Value.obj (Obj.closure ⟨c8FnS, []⟩), Value.number 42].getD i Value.nil⟩)
      ∧ (∀ (g : CallFrame Int) (gs : List (CallFrame Int)),
          [(⟨⟨c8FnS, []⟩, 2, 0⟩ : CallFrame Int)] = g :: gs →
          step intNumModel natNil c8S = StepResult.next
            { c8S with frames := [⟨⟨c8FnS, []⟩, 2, 0⟩],
                       stack := [Value.obj (Obj.closure ⟨c8FnS, []⟩),
                         Value.number 42].take 1 ++ [Value.number 7],
                       uheap := h,
                       openUpvalues := c8S.openUpvalues.filter
                         (fun id => ! locGe c8S.uheap 1 id) })
      ∧ (∀ (stk₀ : List (Value Int)) (cv : Value Int),
          [(⟨⟨c8FnS, []⟩, 2, 0⟩ : CallFrame Int)] = [] →
          [Value.obj (Obj.closure ⟨c8FnS, []⟩), Value.number 42] = stk₀ ++ [cv] →
          step intNumModel natNil c8S = StepResult.done InterpretResult.ok
            { c8S with frames := [], stack := stk₀, uheap := h,
                       openUpvalues := c8S.openUpvalues.filter
                         (fun id => ! locGe c8S.uheap 1 id) }) :=
  opReturn_semantics intNumModel natNil c8S ⟨⟨c8FnR, []⟩, 0, 1⟩
    ⟨⟨c8FnR, []⟩, 1, 1⟩ [⟨⟨c8FnS, []⟩, 2, 0⟩] 28
    [.obj (.closure ⟨c8FnS, []⟩), .number 42] (.number 7)
    rfl rfl rfl rfl rfl rfl

end Clox
